import Mathlib

/-!
DHT11 single-wire driver (`labs/2/myDHT11.h`, class `MyDHT`)

A shallow embedding of the driver class and a verification of its behaviour.

* The pin and the timing primitives are external.  The line is an oracle
  `line : Nat → Bool`: the level seen by the `k`-th read of the pin since the
  world began.  Every call on the pin or on a delay primitive is appended to a
  trace, so "no pin activity" is a statement about the trace.
* `uint8_t` values are naturals with an explicit `% 256` where the source
  truncates; the 32-bit `unsigned int` timestamp is a natural with an explicit
  `% 2 ^ 32` at the store.
* `lastHumidity` and `lastTemperature` are `float` fields that only ever hold
  `0` or the value of a byte, all exactly representable; they are carried as
  naturals.
* `waitSignal` is a `while` loop; it is embedded with a fuel argument, `none`
  standing for "ran out of fuel".  Its counter is a 32-bit `int` compared with
  an `unsigned int` bound: the comparison is made on the counter reduced
  modulo `2 ^ 32`.  For every bound up to `2 ^ 31 - 2`, which includes the
  bounds 250, 100, 75 and 50 the driver uses, the counter never overflows and
  the fuel `maxTime + 2` given by `waitSignal` is proved never to run out.
-/

namespace MyDHT

/-! ## External collaborators: the pin and the delays -/

/-- Calls made on `DigitalInOut` and on the delay primitives, in program order. -/
inductive PinEvent where
  | construct
  | output
  | input
  | modePullUp
  | write (v : Nat)
  | read (v : Nat)
  | waitUs (n : Nat)
  | sleepMs (n : Nat)
  deriving DecidableEq, Repr

/-- The outside world seen by the driver: the line oracle, how many reads were
made so far, and the trace of every call. -/
structure World where
  line : Nat → Bool
  reads : Nat
  trace : List PinEvent

/-- Effect of `DigitalInOut interface(dataPin_c)`. -/
def World.construct (w : World) : World :=
  { w with trace := w.trace ++ [PinEvent.construct] }

/-- Effect of `interface.output()`. -/
def World.output (w : World) : World :=
  { w with trace := w.trace ++ [PinEvent.output] }

/-- Effect of `interface.input()`. -/
def World.input (w : World) : World :=
  { w with trace := w.trace ++ [PinEvent.input] }

/-- Effect of `interface.mode(PullUp)`. -/
def World.modePullUp (w : World) : World :=
  { w with trace := w.trace ++ [PinEvent.modePullUp] }

/-- Effect of `interface = v`. -/
def World.write (w : World) (v : Nat) : World :=
  { w with trace := w.trace ++ [PinEvent.write v] }

/-- Effect of `wait_us(n)`. -/
def World.wait_us (w : World) (n : Nat) : World :=
  { w with trace := w.trace ++ [PinEvent.waitUs n] }

/-- Effect of `thread_sleep_for(n)`. -/
def World.thread_sleep_for (w : World) (n : Nat) : World :=
  { w with trace := w.trace ++ [PinEvent.sleepMs n] }

/-- Level of the line at the next read, as the `int` that `DigitalInOut`
converts to: `1` for high, `0` for low. -/
def World.level (w : World) : Nat :=
  if w.line w.reads then 1 else 0

/-- Reading the pin (`io` used as an `int`): the value read and the world after. -/
def World.readPin (w : World) : Nat × World :=
  (w.level, { w with reads := w.reads + 1, trace := w.trace ++ [PinEvent.read w.level] })

/-! ## The driver -/

def DHT11_MICROCONTROLLER_RESOLUTION_BITS : Nat := 8
def SINGLE_BUS_DATA_FRAME_SIZE_BYTES : Nat := 5
def MAXIMUM_DATA_FRAME_SIZE_BITS : Nat := 40
def minimumTimeForUpdate_c : Nat := 3
def HIGH : Nat := 1
def LOW : Nat := 0

/-- Mutable fields of `MyDHT`. -/
structure Driver where
  lastTimeOfUpdate : Nat
  lastHumidity : Nat
  lastTemperature : Nat
  dataFrame : List Nat

/-- The loop of `waitSignal`, with a fuel argument.  `count` is the number of
`count++` executed so far.  The source keeps it in a 32-bit `int` and, in
`count > maxTime`, converts it to `unsigned int` to compare it with the
`unsigned int` bound: the value compared is `count % 2 ^ 32` (the counter is
taken to wrap around in two's complement once it passes `2 ^ 31 - 1`, where
the language leaves the overflow undefined; up to there the value is `count`
itself). -/
def waitSignalLoop (level maxTime : Nat) : Nat → Nat → World → Option (Bool × World)
  | 0, _, _ => none
  | fuel + 1, count, w =>
    if level = w.readPin.1 then
      if count % 2 ^ 32 > maxTime then some (false, w.readPin.2)
      else waitSignalLoop level maxTime fuel (count + 1) (w.readPin.2.wait_us 1)
    else some (true, w.readPin.2)

/-- Embedding of `waitSignal(io, level, maxTime)`: spins while the pin reads
`level`.  `maxTime` is an `unsigned int`, below `2 ^ 32`.  The fuel
`maxTime + 2` is enough for every bound below `2 ^ 32 - 1`; at the bound
`2 ^ 32 - 1` the test `count > maxTime` can never succeed and the loop is
studied through `waitSignalLoop` with arbitrary fuel. -/
def waitSignal (w : World) (level maxTime : Nat) : Option (Bool × World) :=
  waitSignalLoop level maxTime (maxTime + 2) 0 w

/-- A `for` loop over the listed indices whose body may leave the enclosing
function with `return false` (`false` in the first component) or may run out
of fuel (`none`). -/
def forLoop {σ : Type} (body : Nat → σ → Option (Bool × σ)) : List Nat → σ → Option (Bool × σ)
  | [], st => some (true, st)
  | k :: ks, st =>
    match body k st with
    | none => none
    | some (false, st1) => some (false, st1)
    | some (true, st1) => forLoop body ks st1

/-- Body of the sampling loop of `readDataFromPin` for bit index `k = i*8 + j`. -/
def sampleBit (k : Nat) (st : List Nat × World) : Option (Bool × (List Nat × World)) :=
  match waitSignal st.2 0 75 with
  | none => none
  | some (false, w1) => some (false, (st.1, w1))
  | some (true, w1) =>
    let r := (w1.wait_us 40).readPin
    let bitData := st.1.set k r.1
    match waitSignal r.2 1 50 with
    | none => none
    | some (false, w2) => some (false, (bitData, w2))
    | some (true, w2) => some (true, (bitData, w2))

/-- The sampling loops of `readDataFromPin` (the first pair of nested `for`s). -/
def sampleLoop (bitData : List Nat) (w : World) : Option (Bool × (List Nat × World)) :=
  forLoop (fun i st =>
      forLoop (fun j st1 => sampleBit (i * DHT11_MICROCONTROLLER_RESOLUTION_BITS + j) st1)
        (List.range DHT11_MICROCONTROLLER_RESOLUTION_BITS) st)
    (List.range SINGLE_BUS_DATA_FRAME_SIZE_BYTES) (bitData, w)

/-- Inner assembly loop of `readDataFromPin`: the byte `b` built for frame index `i`. -/
def assembleByte (bitData : List Nat) (i : Nat) : Nat :=
  (List.range DHT11_MICROCONTROLLER_RESOLUTION_BITS).foldl
    (fun b j =>
      if bitData.getD (i * DHT11_MICROCONTROLLER_RESOLUTION_BITS + j) 0 = 1
      then (b ||| (1 <<< (7 - j))) % 256 else b) 0

/-- Outer assembly loop of `readDataFromPin`: writes the five bytes of `dataFrame`. -/
def assembleFrame (bitData : List Nat) (dataFrame : List Nat) : List Nat :=
  (List.range SINGLE_BUS_DATA_FRAME_SIZE_BYTES).foldl
    (fun fr i => fr.set i (assembleByte bitData i)) dataFrame

/-- Embedding of `readDataFromPin(bitData, io)`: the returned flag, the driver,
the bit buffer (passed by reference) and the world after the call. -/
def readDataFromPin (s : Driver) (bitData : List Nat) (w : World) :
    Option (Bool × Driver × List Nat × World) :=
  match sampleLoop bitData w with
  | none => none
  | some (false, st) => some (false, s, st.1, st.2)
  | some (true, st) =>
    some (true, { s with dataFrame := assembleFrame st.1 s.dataFrame }, st.1, st.2)

/-- Embedding of `isValidCheckSum()`; the bytes are promoted to `int` before the sum. -/
def isValidCheckSum (s : Driver) : Bool :=
  s.dataFrame.getD 4 0 ==
    ((s.dataFrame.getD 0 0 + s.dataFrame.getD 1 0 + s.dataFrame.getD 2 0 + s.dataFrame.getD 3 0)
      &&& 0xFF)

/-- Embedding of `updateTemperature()`. -/
def updateTemperature (s : Driver) : Driver :=
  { s with lastTemperature := s.dataFrame.getD 2 0 }

/-- Embedding of `updateHumidity()`. -/
def updateHumidity (s : Driver) : Driver :=
  { s with lastHumidity := s.dataFrame.getD 0 0 }

/-- Value of `difftime(currentTimeOfUpdate, lastTimeOfUpdate)`. -/
def difftime (t1 : Int) (t0 : Nat) : Int := t1 - (t0 : Int)

/-- Embedding of `updateData()`; `now` is the value returned by `time(NULL)`.
The local array `paramsForWaitSignal` is written and never read, so it is left out. -/
def updateData (s : Driver) (now : Int) (w : World) : Option (Driver × World) :=
  if difftime now s.lastTimeOfUpdate < (minimumTimeForUpdate_c : Int) then some (s, w)
  else
    let s1 : Driver := { s with lastTimeOfUpdate := (now % 2 ^ 32).toNat }
    let s2 : Driver := { s1 with dataFrame := List.replicate SINGLE_BUS_DATA_FRAME_SIZE_BYTES 0 }
    match waitSignal w.construct 0 250 with
    | none => none
    | some (false, w1) => some (s2, w1)
    | some (true, w1) =>
      let w2 := ((((((w1.output.write LOW).thread_sleep_for 20).modePullUp).write HIGH).wait_us 30).input)
      match waitSignal w2 1 100 with
      | none => none
      | some (false, w3) => some (s2, w3)
      | some (true, w3) =>
        match waitSignal w3 0 100 with
        | none => none
        | some (false, w4) => some (s2, w4)
        | some (true, w4) =>
          match waitSignal w4 1 100 with
          | none => none
          | some (false, w5) => some (s2, w5)
          | some (true, w5) =>
            match readDataFromPin s2 (List.replicate MAXIMUM_DATA_FRAME_SIZE_BITS 0) w5 with
            | none => none
            | some (_, s3, _, w6) =>
              if isValidCheckSum s3 then some (updateHumidity (updateTemperature s3), w6)
              else some (s3, w6)

/-- Embedding of `getHumidity()`: the returned value, the driver and the world after. -/
def getHumidity (s : Driver) (now : Int) (w : World) : Option (Nat × Driver × World) :=
  match updateData s now w with
  | none => none
  | some (s1, w1) => some (s1.lastHumidity, s1, w1)

/-- Embedding of `getTemperature()`: the returned value, the driver and the world after. -/
def getTemperature (s : Driver) (now : Int) (w : World) : Option (Nat × Driver × World) :=
  match updateData s now w with
  | none => none
  | some (s1, w1) => some (s1.lastTemperature, s1, w1)

/-! ## Named segments of `updateData`, used to state the properties -/

/-- Lines 127 and 129 of `updateData`: the driver once the rate limiter has let
the read proceed (timestamp stored, frame zeroed). -/
def beginAttempt (s : Driver) (now : Int) : Driver :=
  { lastTimeOfUpdate := (now % 2 ^ 32).toNat
    lastHumidity := s.lastHumidity
    lastTemperature := s.lastTemperature
    dataFrame := List.replicate SINGLE_BUS_DATA_FRAME_SIZE_BYTES 0 }

/-- Lines 137 to 147 of `updateData`: the host reset pulse. -/
def hostReset (w : World) : World :=
  ((((((w.output.write LOW).thread_sleep_for 20).modePullUp).write HIGH).wait_us 30).input)

/-- Lines 131 to 157 of `updateData` on their own: the idle wait, the host
reset and the three acknowledgment waits.  The flag tells whether all four
waits succeeded; the world is the one in which the segment stopped. -/
def initiation (w : World) : Option (Bool × World) :=
  match waitSignal w.construct 0 250 with
  | none => none
  | some (false, w1) => some (false, w1)
  | some (true, w1) =>
    match waitSignal (hostReset w1) 1 100 with
    | none => none
    | some (false, w2) => some (false, w2)
    | some (true, w2) =>
      match waitSignal w2 0 100 with
      | none => none
      | some (false, w3) => some (false, w3)
      | some (true, w3) => waitSignal w3 1 100

/-- The zero-initialised bit buffer `DataFrameBits_t bitData = {}`. -/
def emptyBits : List Nat := List.replicate MAXIMUM_DATA_FRAME_SIZE_BITS 0

/-- Level of the line at read number `i`, as an `int`. -/
def levelAt (line : Nat → Bool) (i : Nat) : Nat := if line i then 1 else 0

/-- Trace of `m` turns of the loop of `waitSignal`: a read equal to `level`
followed by `wait_us(1)`, `m` times. -/
def spin (level : Nat) : Nat → List PinEvent
  | 0 => []
  | m + 1 => PinEvent.read level :: PinEvent.waitUs 1 :: spin level m

/-! ## Concrete inputs -/

/-- A line on which the sensor answers the handshake at once and then sends
`bits`, every wait ending at its first read. -/
def lineOfBits (bits : List Nat) : Nat → Bool :=
  fun k => ([true, false, true, false] ++
    bits.flatMap (fun b => [true, b == 1, false])).getD k false

/-- Bits of the bytes `[0x82, 0x00, 0x19, 0x00, 0x93]` (checksum wrong). -/
def bitsBadSum : List Nat :=
  [1,0,0,0,0,0,1,0, 0,0,0,0,0,0,0,0, 0,0,0,1,1,0,0,1, 0,0,0,0,0,0,0,0, 1,0,0,1,0,0,1,1]

/-- Bits of the bytes `[0x32, 0x00, 0x1B, 0x00, 0x4D]` (checksum right). -/
def bitsGood : List Nat :=
  [0,0,1,1,0,0,1,0, 0,0,0,0,0,0,0,0, 0,0,0,1,1,0,1,1, 0,0,0,0,0,0,0,0, 0,1,0,0,1,1,0,1]

/-- A line that answers the handshake and then stays low. -/
def lineStuckLow : Nat → Bool := fun k => k == 0 || k == 2

/-- A driver holding an earlier good reading (humidity 61, temperature 23),
last updated at time 100. -/
def driverOld : Driver :=
  { lastTimeOfUpdate := 100, lastHumidity := 61, lastTemperature := 23,
    dataFrame := [61, 0, 23, 0, 84] }

/-- A world in which nothing has happened yet. -/
def freshWorld (line : Nat → Bool) : World := { line := line, reads := 0, trace := [] }


/-- The world reached from `freshWorld line` once the handshake has gone
through with every wait ending at its first read. -/
def afterHandshake (line : Nat → Bool) : World :=
  { line := line
    reads := 4
    trace := [PinEvent.construct, PinEvent.read 1, PinEvent.output, PinEvent.write 0,
      PinEvent.sleepMs 20, PinEvent.modePullUp, PinEvent.write 1, PinEvent.waitUs 30,
      PinEvent.input, PinEvent.read 0, PinEvent.read 1, PinEvent.read 0] }

/-- The world reached from `afterHandshake line` once the forty `bits` have
been sampled, every wait ending at its first read. -/
def afterFrame (line : Nat → Bool) (bits : List Nat) : World :=
  { line := line
    reads := 124
    trace := (afterHandshake line).trace ++
      bits.flatMap (fun b => [PinEvent.read 1, PinEvent.waitUs 40, PinEvent.read b,
        PinEvent.read 0]) }


/-- A line that is low at every read. -/
def lineAlwaysLow : Nat → Bool := fun _ => false

/-- The world reached from `freshWorld lineAlwaysLow` when the idle wait of
`updateData` has given up. -/
def afterIdleTimeout : World :=
  { line := lineAlwaysLow
    reads := 252
    trace := PinEvent.construct :: (spin 0 251 ++ [PinEvent.read 0]) }

/-- A line read low, then high, then low for good. -/
def lineShortPulse : Nat → Bool := fun k => k == 1

/-- A line read low once, high three times, then low for good. -/
def lineLongPulse : Nat → Bool := fun k => k == 1 || k == 2 || k == 3

/-- The bit step with the polarity of the specification's wording: wait until
the line is read low (spin while it reads high, bound 75), settle for 40
microseconds, sample, then wait until the line is read high (spin while it
reads low, bound 50).  It is only compared with `sampleBit`. -/
def sampleBitAsWorded (k : Nat) (st : List Nat × World) : Option (Bool × (List Nat × World)) :=
  match waitSignal st.2 1 75 with
  | none => none
  | some (false, w1) => some (false, (st.1, w1))
  | some (true, w1) =>
    let r := (w1.wait_us 40).readPin
    let bitData := st.1.set k r.1
    match waitSignal r.2 0 50 with
    | none => none
    | some (false, w2) => some (false, (bitData, w2))
    | some (true, w2) => some (true, (bitData, w2))


set_option linter.dupNamespace false

/-- Embedding of the constructor `MyDHT(PinName _pin)`: the timestamp is the
value `t0` of `time(NULL)` stored in the `unsigned int` field, the cached
readings take their default member initialisers, and `dataFrame`, which the
constructor leaves uninitialised, is whatever `frame` the memory holds. -/
def MyDHT (t0 : Int) (frame : List Nat) : Driver :=
  { lastTimeOfUpdate := (t0 % 2 ^ 32).toNat
    lastHumidity := 0
    lastTemperature := 0
    dataFrame := frame }

/-- Events that neither drive nor configure the pin: reads and delays. -/
def isReadOrDelay : PinEvent → Bool
  | PinEvent.read _ => true
  | PinEvent.waitUs _ => true
  | _ => false

/-- The trace of `w1` is the trace of `w` followed by reads and delays only. -/
def PassiveExt (w w1 : World) : Prop :=
  ∃ evs, w1.trace = w.trace ++ evs ∧ ∀ e ∈ evs, isReadOrDelay e = true

/-- A line on which the sensor answers the handshake, sends the bits 1 and 0,
and then stays low. -/
def lineTwoBits : Nat → Bool :=
  fun k => ([true, false, true, false, true, true, false, true, false, false]).getD k false

/-- The sampler state reached on `lineTwoBits` once two bits are sampled. -/
def afterTwoBits : List Nat × World :=
  ((emptyBits.set 0 1).set 1 0,
    { line := lineTwoBits
      reads := 10
      trace := (afterHandshake lineTwoBits).trace ++
        [PinEvent.read 1, PinEvent.waitUs 40, PinEvent.read 1, PinEvent.read 0,
         PinEvent.read 1, PinEvent.waitUs 40, PinEvent.read 0, PinEvent.read 0] })

/-- The sampler state reached on `lineTwoBits` when the first wait of the third
bit has given up. -/
def afterThirdBitTimeout : List Nat × World :=
  (afterTwoBits.1,
    { line := lineTwoBits
      reads := 87
      trace := afterTwoBits.2.trace ++ (spin 0 76 ++ [PinEvent.read 0]) })

/-- The world reached from `afterHandshake lineStuckLow` when the first wait of
the first bit has given up. -/
def afterFirstBitTimeout : World :=
  { line := lineStuckLow
    reads := 81
    trace := (afterHandshake lineStuckLow).trace ++ (spin 0 76 ++ [PinEvent.read 0]) }

/-- The world reached from `freshWorld lineStuckLow` at the end of the idle wait. -/
def afterIdleWait : World :=
  { line := lineStuckLow, reads := 1, trace := [PinEvent.construct, PinEvent.read 1] }


/-! ## The loop of `waitSignal` -/

theorem waitSignalLoop_isSome (level maxTime : Nat) :
    ∀ (fuel count : Nat) (w : World), maxTime + 1 ≤ fuel + count → fuel + count < 2 ^ 32 →
      (waitSignalLoop level maxTime (fuel + 1) count w).isSome = true := by
  intro fuel
  induction fuel with
  | zero =>
    intro count w h hlt
    have hc : count % 2 ^ 32 > maxTime := by
      rw [Nat.mod_eq_of_lt (by omega)]
      omega
    rw [waitSignalLoop]
    split
    · rfl
    · rfl
  | succ n ih =>
    intro count w h hlt
    rw [waitSignalLoop]
    split
    · split
      · rfl
      · exact ih (count + 1) _ (by omega) (by omega)
    · rfl

theorem waitSignal_total (w : World) (level maxTime : Nat) (hmax : maxTime + 1 < 2 ^ 32) :
    ∃ b w1, waitSignal w level maxTime = some (b, w1) := by
  have h := waitSignalLoop_isSome level maxTime (maxTime + 1) 0 w (by omega) (by omega)
  rw [Option.isSome_iff_exists] at h
  obtain ⟨⟨b, w1⟩, hr⟩ := h
  exact ⟨b, w1, hr⟩

theorem level_eq (w : World) : w.level = levelAt w.line w.reads := rfl

theorem waitSignalLoop_found (level maxTime : Nat) :
    ∀ (m fuel count : Nat) (w : World), count + m ≤ maxTime + 1 → m < fuel →
      (∀ i, i < m → levelAt w.line (w.reads + i) = level) →
      levelAt w.line (w.reads + m) ≠ level →
      waitSignalLoop level maxTime fuel count w =
        some (true, { line := w.line, reads := w.reads + m + 1,
                      trace := w.trace ++ (spin level m ++
                        [PinEvent.read (levelAt w.line (w.reads + m))]) }) := by
  intro m
  induction m with
  | zero =>
    intro fuel count w _ hf _ hne
    obtain ⟨f, rfl⟩ : ∃ f, fuel = f + 1 := ⟨fuel - 1, by omega⟩
    have hne1 : ¬ level = levelAt w.line w.reads := fun h => hne h.symm
    rw [waitSignalLoop]
    simp only [World.readPin, level_eq, hne1, if_false]
    rfl
  | succ n ih =>
    intro fuel count w hc hf hall hne
    obtain ⟨f, rfl⟩ : ∃ f, fuel = f + 1 := ⟨fuel - 1, by omega⟩
    have h0 : levelAt w.line w.reads = level := hall 0 (by omega)
    have hc1 : ¬ count % 2 ^ 32 > maxTime := by
      have := Nat.mod_le count (2 ^ 32)
      omega
    rw [waitSignalLoop]
    simp only [World.readPin, level_eq, h0, if_true, hc1, if_false]
    rw [ih f (count + 1) _ (by omega) (by omega)]
    · simp [World.wait_us, spin, Nat.add_assoc, Nat.add_comm 1 n]
    · intro i hi
      have := hall (i + 1) (by omega)
      simpa [World.wait_us, Nat.add_assoc, Nat.add_comm 1 i] using this
    · simpa [World.wait_us, Nat.add_assoc, Nat.add_comm 1 n] using hne

theorem waitSignalLoop_timeout (level maxTime : Nat) :
    ∀ (fuel count : Nat) (w : World), fuel + count = maxTime + 1 → maxTime + 1 < 2 ^ 32 →
      (∀ i, i < fuel + 1 → levelAt w.line (w.reads + i) = level) →
      waitSignalLoop level maxTime (fuel + 1) count w =
        some (false, { line := w.line, reads := w.reads + fuel + 1,
                       trace := w.trace ++ (spin level fuel ++ [PinEvent.read level]) }) := by
  intro fuel
  induction fuel with
  | zero =>
    intro count w hc hmax hall
    have h0 : levelAt w.line w.reads = level := hall 0 (by omega)
    have hc1 : count % 2 ^ 32 > maxTime := by
      rw [Nat.mod_eq_of_lt (by omega)]
      omega
    rw [waitSignalLoop]
    simp only [World.readPin, level_eq, h0, if_true, hc1]
    rfl
  | succ n ih =>
    intro count w hc hmax hall
    have h0 : levelAt w.line w.reads = level := hall 0 (by omega)
    have hc1 : ¬ count % 2 ^ 32 > maxTime := by
      have := Nat.mod_le count (2 ^ 32)
      omega
    rw [waitSignalLoop]
    simp only [World.readPin, level_eq, h0, if_true, hc1, if_false]
    rw [ih (count + 1) _ (by omega) hmax]
    · simp [World.wait_us, spin, Nat.add_assoc, Nat.add_comm 1 n]
    · intro i hi
      have := hall (i + 1) (by omega)
      simpa [World.wait_us, Nat.add_assoc, Nat.add_comm 1 i] using this

theorem waitSignal_found (w : World) (level maxTime m : Nat) (hm : m ≤ maxTime + 1)
    (hall : ∀ i, i < m → levelAt w.line (w.reads + i) = level)
    (hne : levelAt w.line (w.reads + m) ≠ level) :
    waitSignal w level maxTime =
      some (true, { line := w.line, reads := w.reads + m + 1,
                    trace := w.trace ++ (spin level m ++
                      [PinEvent.read (levelAt w.line (w.reads + m))]) }) :=
  waitSignalLoop_found level maxTime m (maxTime + 2) 0 w (by omega) (by omega) hall hne

theorem waitSignal_timeout (w : World) (level maxTime : Nat) (hmax : maxTime + 1 < 2 ^ 32)
    (hall : ∀ i, i < maxTime + 2 → levelAt w.line (w.reads + i) = level) :
    waitSignal w level maxTime =
      some (false, { line := w.line, reads := w.reads + (maxTime + 2),
                     trace := w.trace ++ (spin level (maxTime + 1) ++ [PinEvent.read level]) }) :=
  waitSignalLoop_timeout level maxTime (maxTime + 1) 0 w (by omega) hmax hall


/-! ## Totality -/

theorem sampleBit_total (k : Nat) (st : List Nat × World) :
    ∃ b st1, sampleBit k st = some (b, st1) := by
  unfold sampleBit
  obtain ⟨b1, w1, h1⟩ := waitSignal_total st.2 0 75 (by norm_num)
  rw [h1]
  cases b1
  · exact ⟨_, _, rfl⟩
  · obtain ⟨b2, w2, h2⟩ := waitSignal_total ((w1.wait_us 40).readPin).2 1 50
      (by norm_num)
    simp only [h2]
    cases b2 <;> exact ⟨_, _, rfl⟩

theorem forLoop_total {σ : Type} (body : Nat → σ → Option (Bool × σ))
    (hbody : ∀ k st, ∃ b st1, body k st = some (b, st1)) :
    ∀ (ks : List Nat) (st : σ), ∃ b st1, forLoop body ks st = some (b, st1) := by
  intro ks
  induction ks with
  | nil => intro st; exact ⟨true, st, rfl⟩
  | cons k ks ih =>
    intro st
    obtain ⟨b, st1, h⟩ := hbody k st
    rw [forLoop, h]
    cases b
    · exact ⟨_, _, rfl⟩
    · exact ih st1

theorem sampleLoop_total (bitData : List Nat) (w : World) :
    ∃ b st, sampleLoop bitData w = some (b, st) :=
  forLoop_total _ (fun _ st => forLoop_total _ (fun _ st1 => sampleBit_total _ st1) _ st) _ _

theorem readDataFromPin_total (s : Driver) (bitData : List Nat) (w : World) :
    ∃ b s1 bits w1, readDataFromPin s bitData w = some (b, s1, bits, w1) ∧
      s1.lastTimeOfUpdate = s.lastTimeOfUpdate ∧ s1.lastHumidity = s.lastHumidity ∧
      s1.lastTemperature = s.lastTemperature := by
  obtain ⟨b, st, h⟩ := sampleLoop_total bitData w
  unfold readDataFromPin
  rw [h]
  cases b
  · exact ⟨_, _, _, _, rfl, rfl, rfl, rfl⟩
  · exact ⟨_, _, _, _, rfl, rfl, rfl, rfl⟩

theorem initiation_total (w : World) : ∃ b w1, initiation w = some (b, w1) := by
  unfold initiation
  obtain ⟨b1, w1, h1⟩ := waitSignal_total w.construct 0 250 (by norm_num)
  rw [h1]
  cases b1
  · exact ⟨_, _, rfl⟩
  obtain ⟨b2, w2, h2⟩ := waitSignal_total (hostReset w1) 1 100 (by norm_num)
  simp only [h2]
  cases b2
  · exact ⟨_, _, rfl⟩
  obtain ⟨b3, w3, h3⟩ := waitSignal_total w2 0 100 (by norm_num)
  simp only [h3]
  cases b3
  · exact ⟨_, _, rfl⟩
  exact waitSignal_total w3 1 100 (by norm_num)

/-! ## `updateData` by outcome -/

theorem updateData_limited (s : Driver) (now : Int) (w : World)
    (h : difftime now s.lastTimeOfUpdate < (minimumTimeForUpdate_c : Int)) :
    updateData s now w = some (s, w) := by
  unfold updateData
  rw [if_pos h]

theorem updateData_eq (s : Driver) (now : Int) (w : World) :
    updateData s now w =
      if difftime now s.lastTimeOfUpdate < (minimumTimeForUpdate_c : Int) then some (s, w)
      else
        match initiation w with
        | none => none
        | some (false, w1) => some (beginAttempt s now, w1)
        | some (true, w1) =>
          match readDataFromPin (beginAttempt s now) emptyBits w1 with
          | none => none
          | some (_, s3, _, w6) =>
            if isValidCheckSum s3 then some (updateHumidity (updateTemperature s3), w6)
            else some (s3, w6) := by
  unfold updateData initiation
  split
  · rfl
  · cases h1 : waitSignal w.construct 0 250 with
    | none => rfl
    | some r1 =>
      obtain ⟨b1, w1⟩ := r1
      cases b1
      · rfl
      · dsimp only [hostReset]
        cases h2 : waitSignal ((((((w1.output.write LOW).thread_sleep_for 20).modePullUp).write
            HIGH).wait_us 30).input) 1 100 with
        | none => rfl
        | some r2 =>
          obtain ⟨b2, w2⟩ := r2
          cases b2
          · rfl
          · dsimp only
            cases h3 : waitSignal w2 0 100 with
            | none => rfl
            | some r3 =>
              obtain ⟨b3, w3⟩ := r3
              cases b3
              · rfl
              · dsimp only
                cases h4 : waitSignal w3 1 100 with
                | none => rfl
                | some r4 =>
                  obtain ⟨b4, w4⟩ := r4
                  cases b4
                  · rfl
                  · rfl

theorem updateData_init_fail (s : Driver) (now : Int) (w w1 : World)
    (h : ¬ difftime now s.lastTimeOfUpdate < (minimumTimeForUpdate_c : Int))
    (hi : initiation w = some (false, w1)) :
    updateData s now w = some (beginAttempt s now, w1) := by
  rw [updateData_eq, if_neg h, hi]

theorem updateData_sampled (s : Driver) (now : Int) (w w1 w2 : World) (b : Bool)
    (s3 : Driver) (bits : List Nat)
    (h : ¬ difftime now s.lastTimeOfUpdate < (minimumTimeForUpdate_c : Int))
    (hi : initiation w = some (true, w1))
    (hr : readDataFromPin (beginAttempt s now) emptyBits w1 = some (b, s3, bits, w2)) :
    updateData s now w =
      some (if isValidCheckSum s3 then updateHumidity (updateTemperature s3) else s3, w2) := by
  rw [updateData_eq, if_neg h, hi]
  simp only [hr]
  split <;> rfl

theorem isValidCheckSum_iff (s : Driver) :
    isValidCheckSum s = true ↔
      s.dataFrame.getD 4 0 =
        (s.dataFrame.getD 0 0 + s.dataFrame.getD 1 0 + s.dataFrame.getD 2 0 +
          s.dataFrame.getD 3 0) % 256 := by
  unfold isValidCheckSum
  rw [beq_iff_eq]
  have h := Nat.and_pow_two_sub_one_eq_mod
    (s.dataFrame.getD 0 0 + s.dataFrame.getD 1 0 + s.dataFrame.getD 2 0 + s.dataFrame.getD 3 0) 8
  have e : (2 : Nat) ^ 8 - 1 = 0xFF := by decide
  have e2 : (2 : Nat) ^ 8 = 256 := by decide
  rw [e, e2] at h
  rw [h]


/-! ## Frame assembly -/

theorem foldl_range_eight (f : Nat → Nat → Nat) :
    (List.range 8).foldl f 0 = f (f (f (f (f (f (f (f 0 0) 1) 2) 3) 4) 5) 6) 7 := rfl

theorem pack_eight : ∀ x0 x1 x2 x3 x4 x5 x6 x7 : Fin 2,
    (fun (b j : Nat) (x : Fin 2) => if x.val = 1 then (b ||| (1 <<< (7 - j))) % 256 else b)
      ((fun (b j : Nat) (x : Fin 2) => if x.val = 1 then (b ||| (1 <<< (7 - j))) % 256 else b)
      ((fun (b j : Nat) (x : Fin 2) => if x.val = 1 then (b ||| (1 <<< (7 - j))) % 256 else b)
      ((fun (b j : Nat) (x : Fin 2) => if x.val = 1 then (b ||| (1 <<< (7 - j))) % 256 else b)
      ((fun (b j : Nat) (x : Fin 2) => if x.val = 1 then (b ||| (1 <<< (7 - j))) % 256 else b)
      ((fun (b j : Nat) (x : Fin 2) => if x.val = 1 then (b ||| (1 <<< (7 - j))) % 256 else b)
      ((fun (b j : Nat) (x : Fin 2) => if x.val = 1 then (b ||| (1 <<< (7 - j))) % 256 else b)
      ((fun (b j : Nat) (x : Fin 2) => if x.val = 1 then (b ||| (1 <<< (7 - j))) % 256 else b)
        0 0 x0) 1 x1) 2 x2) 3 x3) 4 x4) 5 x5) 6 x6) 7 x7 =
      x0.val * 128 + x1.val * 64 + x2.val * 32 + x3.val * 16 + x4.val * 8 + x5.val * 4 +
        x6.val * 2 + x7.val := by
  decide

theorem getD_bit (bits : List Nat) (hbit : ∀ x ∈ bits, x = 0 ∨ x = 1) (k : Nat) :
    bits.getD k 0 < 2 := by
  rw [List.getD_eq_getElem?_getD]
  cases h : bits[k]? with
  | none => simp
  | some x =>
    have hx : x ∈ bits := List.getElem?_mem h
    rcases hbit x hx with h0 | h1 <;> simp [*]

theorem assembleByte_eq (bits : List Nat) (hbit : ∀ x ∈ bits, x = 0 ∨ x = 1) (i : Nat) :
    assembleByte bits i =
      bits.getD (i * 8 + 0) 0 * 128 + bits.getD (i * 8 + 1) 0 * 64 + bits.getD (i * 8 + 2) 0 * 32 +
        bits.getD (i * 8 + 3) 0 * 16 + bits.getD (i * 8 + 4) 0 * 8 + bits.getD (i * 8 + 5) 0 * 4 +
        bits.getD (i * 8 + 6) 0 * 2 + bits.getD (i * 8 + 7) 0 := by
  have h := pack_eight ⟨_, getD_bit bits hbit (i * 8 + 0)⟩ ⟨_, getD_bit bits hbit (i * 8 + 1)⟩
    ⟨_, getD_bit bits hbit (i * 8 + 2)⟩ ⟨_, getD_bit bits hbit (i * 8 + 3)⟩
    ⟨_, getD_bit bits hbit (i * 8 + 4)⟩ ⟨_, getD_bit bits hbit (i * 8 + 5)⟩
    ⟨_, getD_bit bits hbit (i * 8 + 6)⟩ ⟨_, getD_bit bits hbit (i * 8 + 7)⟩
  unfold assembleByte DHT11_MICROCONTROLLER_RESOLUTION_BITS
  rw [foldl_range_eight]
  exact h

theorem assembleFrame_eq (bits : List Nat) (f0 f1 f2 f3 f4 : Nat) :
    assembleFrame bits [f0, f1, f2, f3, f4] =
      [assembleByte bits 0, assembleByte bits 1, assembleByte bits 2, assembleByte bits 3,
        assembleByte bits 4] := rfl


/-! ## The claims -/

set_option maxRecDepth 100000

/-- C1 (the code departs from it): on the line `lineStuckLow` the read of
`driverOld` at time 110 passes the rate limiter and the handshake, the bit
sampler times out (`readDataFromPin` returns `false`), and yet the cached
humidity and temperature, 61 and 23 before the read, are both 0 after it. -/
theorem sampler_timeout_overwrites_cache :
    (minimumTimeForUpdate_c : Int) ≤ difftime 110 driverOld.lastTimeOfUpdate ∧
    (initiation (freshWorld lineStuckLow)).map Prod.fst = some true ∧
    ((initiation (freshWorld lineStuckLow)).bind
        (fun r => readDataFromPin (beginAttempt driverOld 110) emptyBits r.2)).map Prod.fst
      = some false ∧
    driverOld.lastHumidity = 61 ∧ driverOld.lastTemperature = 23 ∧
    (updateData driverOld 110 (freshWorld lineStuckLow)).map
        (fun r => (r.1.lastHumidity, r.1.lastTemperature)) = some (0, 0) ∧
    (getHumidity driverOld 110 (freshWorld lineStuckLow)).map Prod.fst = some 0 ∧
    (getTemperature driverOld 110 (freshWorld lineStuckLow)).map Prod.fst = some 0 := by
  decide

/-- C2: for every frame of five bytes, `isValidCheckSum` returns `true` exactly
when the fifth byte equals the sum of the first four (taken without 8-bit
wrap-around) reduced modulo 256. -/
theorem isValidCheckSum_iff_sum_mod (t h c b0 b1 b2 b3 b4 : Nat) :
    isValidCheckSum { lastTimeOfUpdate := t, lastHumidity := h, lastTemperature := c,
                      dataFrame := [b0, b1, b2, b3, b4] } = true ↔
      b4 = (b0 + b1 + b2 + b3) % 256 :=
  isValidCheckSum_iff _

/-- C3: when a read passes the rate limiter, completes the initiation and
samples all 40 bits into `bits`, and the frame packed from `bits` fails the
checksum, the read ends with that frame stored and with the cached humidity and
temperature equal to their values before the read. -/
theorem checksum_mismatch_keeps_cache (s : Driver) (now : Int) (w w1 w2 : World)
    (bits : List Nat)
    (hrate : (minimumTimeForUpdate_c : Int) ≤ difftime now s.lastTimeOfUpdate)
    (hinit : initiation w = some (true, w1))
    (hsample : sampleLoop emptyBits w1 = some (true, (bits, w2)))
    (hsum : (assembleFrame bits (List.replicate 5 0)).getD 4 0 ≠
      ((assembleFrame bits (List.replicate 5 0)).getD 0 0 +
        (assembleFrame bits (List.replicate 5 0)).getD 1 0 +
        (assembleFrame bits (List.replicate 5 0)).getD 2 0 +
        (assembleFrame bits (List.replicate 5 0)).getD 3 0) % 256) :
    ∃ s1, updateData s now w = some (s1, w2) ∧
      s1.dataFrame = assembleFrame bits (List.replicate 5 0) ∧
      s1.lastHumidity = s.lastHumidity ∧ s1.lastTemperature = s.lastTemperature := by
  have hr : readDataFromPin (beginAttempt s now) emptyBits w1 =
      some (true, { beginAttempt s now with
        dataFrame := assembleFrame bits (beginAttempt s now).dataFrame }, bits, w2) := by
    unfold readDataFromPin
    rw [hsample]
  have hv : isValidCheckSum { beginAttempt s now with
      dataFrame := assembleFrame bits (beginAttempt s now).dataFrame } = false := by
    rw [Bool.eq_false_iff]
    intro hc
    exact hsum ((isValidCheckSum_iff _).1 hc)
  refine ⟨_, updateData_sampled s now w w1 w2 _ _ _ (not_lt.2 hrate) hinit hr, ?_⟩
  rw [hv]
  exact ⟨rfl, rfl, rfl⟩

/-- C3, witness: the bit buffer of the bytes `[0x82, 0x00, 0x19, 0x00, 0x93]`. -/
theorem checksum_mismatch_keeps_cache_witness :
    ∃ s1, updateData driverOld 110 (freshWorld (lineOfBits bitsBadSum)) =
        some (s1, afterFrame (lineOfBits bitsBadSum) bitsBadSum) ∧
      s1.dataFrame = [0x82, 0x00, 0x19, 0x00, 0x93] ∧
      s1.lastHumidity = 61 ∧ s1.lastTemperature = 23 :=
  checksum_mismatch_keeps_cache driverOld 110 (freshWorld (lineOfBits bitsBadSum))
    (afterHandshake (lineOfBits bitsBadSum)) (afterFrame (lineOfBits bitsBadSum) bitsBadSum)
    bitsBadSum (by decide) rfl rfl (by decide)

/-- C4: when a read passes the rate limiter, completes the initiation and
samples all 40 bits into `bits`, and the frame packed from `bits` passes the
checksum, the cached humidity becomes byte 0 and the cached temperature byte 2
of that frame (bytes 1 and 3 play no part), and `getHumidity` and
`getTemperature` return these values. -/
theorem checksum_match_updates_cache (s : Driver) (now : Int) (w w1 w2 : World)
    (bits : List Nat)
    (hrate : (minimumTimeForUpdate_c : Int) ≤ difftime now s.lastTimeOfUpdate)
    (hinit : initiation w = some (true, w1))
    (hsample : sampleLoop emptyBits w1 = some (true, (bits, w2)))
    (hsum : (assembleFrame bits (List.replicate 5 0)).getD 4 0 =
      ((assembleFrame bits (List.replicate 5 0)).getD 0 0 +
        (assembleFrame bits (List.replicate 5 0)).getD 1 0 +
        (assembleFrame bits (List.replicate 5 0)).getD 2 0 +
        (assembleFrame bits (List.replicate 5 0)).getD 3 0) % 256) :
    ∃ s1, updateData s now w = some (s1, w2) ∧
      s1.dataFrame = assembleFrame bits (List.replicate 5 0) ∧
      s1.lastHumidity = (assembleFrame bits (List.replicate 5 0)).getD 0 0 ∧
      s1.lastTemperature = (assembleFrame bits (List.replicate 5 0)).getD 2 0 ∧
      getHumidity s now w =
        some ((assembleFrame bits (List.replicate 5 0)).getD 0 0, s1, w2) ∧
      getTemperature s now w =
        some ((assembleFrame bits (List.replicate 5 0)).getD 2 0, s1, w2) := by
  have hr : readDataFromPin (beginAttempt s now) emptyBits w1 =
      some (true, { beginAttempt s now with
        dataFrame := assembleFrame bits (beginAttempt s now).dataFrame }, bits, w2) := by
    unfold readDataFromPin
    rw [hsample]
  have hv : isValidCheckSum { beginAttempt s now with
      dataFrame := assembleFrame bits (beginAttempt s now).dataFrame } = true :=
    (isValidCheckSum_iff _).2 hsum
  have hu := updateData_sampled s now w w1 w2 _ _ _ (not_lt.2 hrate) hinit hr
  rw [hv, if_pos rfl] at hu
  refine ⟨_, hu, rfl, rfl, rfl, ?_, ?_⟩
  · unfold getHumidity
    rw [hu]
    rfl
  · unfold getTemperature
    rw [hu]
    rfl

/-- C4, witness: the bytes `[0x32, 0x00, 0x1B, 0x00, 0x4D]` give humidity 50
and temperature 27. -/
theorem checksum_match_updates_cache_witness :
    ∃ s1, updateData driverOld 110 (freshWorld (lineOfBits bitsGood)) =
        some (s1, afterFrame (lineOfBits bitsGood) bitsGood) ∧
      s1.dataFrame = [0x32, 0x00, 0x1B, 0x00, 0x4D] ∧
      s1.lastHumidity = 50 ∧ s1.lastTemperature = 27 ∧
      getHumidity driverOld 110 (freshWorld (lineOfBits bitsGood)) =
        some (50, s1, afterFrame (lineOfBits bitsGood) bitsGood) ∧
      getTemperature driverOld 110 (freshWorld (lineOfBits bitsGood)) =
        some (27, s1, afterFrame (lineOfBits bitsGood) bitsGood) :=
  checksum_match_updates_cache driverOld 110 (freshWorld (lineOfBits bitsGood))
    (afterHandshake (lineOfBits bitsGood)) (afterFrame (lineOfBits bitsGood) bitsGood)
    bitsGood (by decide) rfl rfl (by decide)


/-- C5: for every buffer of 40 bits, each 0 or 1, byte `i` of the frame written
by the assembly loops of `readDataFromPin` is the sum of `bits[8*i + j] *
2^(7 - j)` over `j` in `0..7`: most-significant bit first, bytes in
transmission order. -/
theorem assembleFrame_msb_first (bits frame : List Nat) (_hlen : bits.length = 40)
    (hbit : ∀ x ∈ bits, x = 0 ∨ x = 1) (hframe : frame.length = 5) (i : Nat) (hi : i < 5) :
    (assembleFrame bits frame).getD i 0 =
      ∑ j ∈ Finset.range 8, bits.getD (8 * i + j) 0 * 2 ^ (7 - j) := by
  obtain ⟨f0, f1, f2, f3, f4, rfl⟩ : ∃ f0 f1 f2 f3 f4, frame = [f0, f1, f2, f3, f4] := by
    match frame, hframe with
    | [f0, f1, f2, f3, f4], _ => exact ⟨f0, f1, f2, f3, f4, rfl⟩
  rw [assembleFrame_eq]
  have hb : (([assembleByte bits 0, assembleByte bits 1, assembleByte bits 2,
      assembleByte bits 3, assembleByte bits 4] : List Nat).getD i 0) = assembleByte bits i := by
    interval_cases i <;> rfl
  rw [hb, assembleByte_eq bits hbit i]
  simp only [Finset.sum_range_succ, Finset.sum_range_zero, Nat.mul_comm 8 i]
  norm_num

/-- C5, witness: the bits `1,0,0,0,0,0,1,0` pack to `0x82`. -/
theorem assembleFrame_msb_first_witness :
    (assembleFrame bitsBadSum [61, 0, 23, 0, 84]).getD 0 0 =
        ∑ j ∈ Finset.range 8, bitsBadSum.getD (8 * 0 + j) 0 * 2 ^ (7 - j) ∧
      (assembleFrame bitsBadSum [61, 0, 23, 0, 84]).getD 0 0 = 0x82 ∧
      bitsBadSum.take 8 = [1, 0, 0, 0, 0, 0, 1, 0] :=
  ⟨assembleFrame_msb_first bitsBadSum [61, 0, 23, 0, 84] (by decide) (by decide) (by decide) 0
    (by decide), by decide, by decide⟩

/-- C6: when less than 3 seconds have elapsed since the stored timestamp, a
read leaves the world as it was (no call on the pin, no delay) and the driver
as it was (humidity, temperature, timestamp, frame), and returns the cached
value. -/
theorem rate_limited_read_is_noop (s : Driver) (now : Int) (w : World)
    (h : difftime now s.lastTimeOfUpdate < (minimumTimeForUpdate_c : Int)) :
    updateData s now w = some (s, w) ∧
      getHumidity s now w = some (s.lastHumidity, s, w) ∧
      getTemperature s now w = some (s.lastTemperature, s, w) := by
  have hu := updateData_limited s now w h
  refine ⟨hu, ?_, ?_⟩
  · unfold getHumidity
    rw [hu]
  · unfold getTemperature
    rw [hu]

/-- C6, witness: `driverOld`, updated at time 100, read at time 102. -/
theorem rate_limited_read_is_noop_witness :
    updateData driverOld 102 (freshWorld lineStuckLow) =
        some (driverOld, freshWorld lineStuckLow) ∧
      getHumidity driverOld 102 (freshWorld lineStuckLow) =
        some (61, driverOld, freshWorld lineStuckLow) ∧
      getTemperature driverOld 102 (freshWorld lineStuckLow) =
        some (23, driverOld, freshWorld lineStuckLow) :=
  rate_limited_read_is_noop driverOld 102 (freshWorld lineStuckLow) (by decide)


/-! ## The timestamp -/

theorem updateData_proceeds (s : Driver) (now : Int) (w : World)
    (h : ¬ difftime now s.lastTimeOfUpdate < (minimumTimeForUpdate_c : Int)) :
    ∃ s1 w1, updateData s now w = some (s1, w1) ∧
      s1.lastTimeOfUpdate = (now % 2 ^ 32).toNat := by
  obtain ⟨b, w1, hi⟩ := initiation_total w
  cases b
  · exact ⟨_, _, updateData_init_fail s now w w1 h hi, rfl⟩
  · obtain ⟨b2, s3, bits, w2, hr, ht, _, _⟩ := readDataFromPin_total (beginAttempt s now) emptyBits w1
    refine ⟨_, _, updateData_sampled s now w w1 w2 b2 s3 bits h hi hr, ?_⟩
    split
    · exact ht
    · exact ht

theorem stored_time_eq (now : Int) (h0 : 0 ≤ now) (h1 : now < 2 ^ 32) :
    (((now % 2 ^ 32).toNat : Nat) : Int) = now := by
  rw [Int.emod_eq_of_lt h0 h1, Int.toNat_of_nonneg h0]

/-- C7: when at least 3 seconds have elapsed (and the clock value fits the
32-bit timestamp field) the read ends with the stored timestamp equal to the
current time, whatever the line does, and any read issued less than 3 seconds
after that time leaves the driver and the world untouched; when less than 3
seconds have elapsed the stored timestamp is unchanged. -/
theorem timestamp_follows_rate_limiter (s : Driver) (now : Int) (w : World) :
    ((minimumTimeForUpdate_c : Int) ≤ difftime now s.lastTimeOfUpdate → now < 2 ^ 32 →
      ∃ s1 w1, updateData s now w = some (s1, w1) ∧ (s1.lastTimeOfUpdate : Int) = now ∧
        ∀ later : Int, later - now < (minimumTimeForUpdate_c : Int) →
          updateData s1 later w1 = some (s1, w1)) ∧
    (difftime now s.lastTimeOfUpdate < (minimumTimeForUpdate_c : Int) →
      ∃ s1 w1, updateData s now w = some (s1, w1) ∧
        s1.lastTimeOfUpdate = s.lastTimeOfUpdate) := by
  constructor
  · intro hrate hfit
    obtain ⟨s1, w1, hu, ht⟩ := updateData_proceeds s now w (not_lt.2 hrate)
    have h0 : 0 ≤ now := by
      unfold difftime minimumTimeForUpdate_c at hrate
      omega
    have hnow : (s1.lastTimeOfUpdate : Int) = now := by
      rw [ht]
      exact stored_time_eq now h0 hfit
    refine ⟨s1, w1, hu, hnow, ?_⟩
    intro later hlater
    apply updateData_limited
    unfold difftime
    rw [hnow]
    exact hlater
  · intro hlim
    exact ⟨s, w, updateData_limited s now w hlim, rfl⟩

/-- C7, witness: `driverOld` read at time 110 on a line that makes the
sampler time out, and read at time 102. -/
theorem timestamp_follows_rate_limiter_witness :
    (∃ s1 w1, updateData driverOld 110 (freshWorld lineStuckLow) = some (s1, w1) ∧
        (s1.lastTimeOfUpdate : Int) = 110 ∧
        ∀ later : Int, later - 110 < (minimumTimeForUpdate_c : Int) →
          updateData s1 later w1 = some (s1, w1)) ∧
      (∃ s1 w1, updateData driverOld 102 (freshWorld lineStuckLow) = some (s1, w1) ∧
        s1.lastTimeOfUpdate = driverOld.lastTimeOfUpdate) :=
  ⟨(timestamp_follows_rate_limiter driverOld 110 (freshWorld lineStuckLow)).1 (by decide)
      (by decide),
    (timestamp_follows_rate_limiter driverOld 102 (freshWorld lineStuckLow)).2 (by decide)⟩

/-- C8, as stated, fails: `driverOld` was updated at time 100; a read at time
102 is rate limited and returns the cached humidity 61, and a read at time 104,
less than 3 seconds later, runs a whole transaction (124 reads of the pin) and
returns 50. -/
theorem repeated_read_counterexample :
    (102 : Int) ≤ 104 ∧ (104 : Int) - 102 < (minimumTimeForUpdate_c : Int) ∧
    (getHumidity driverOld 102 (freshWorld (lineOfBits bitsGood))).map
        (fun r => (r.1, r.2.2.reads, r.2.2.trace)) = some (61, 0, []) ∧
    ((getHumidity driverOld 102 (freshWorld (lineOfBits bitsGood))).bind
        (fun r => getHumidity r.2.1 104 r.2.2)).map
        (fun r => (r.1, r.2.2.reads, r.2.2.trace.length)) = some (50, 124, 172) := by
  decide

/-- C8, amended: for clock times `t1 ≤ t2` less than 3 seconds apart, if the
read at `t1` passed the rate limiter (and `t1` fits the 32-bit timestamp
field), or if `t2` is itself less than 3 seconds after the stored timestamp,
then a read at `t1` followed by a read of the same quantity at `t2` returns the
same value both times and the second read leaves the driver and the world
untouched. -/
theorem repeated_read_within_window (s : Driver) (t1 t2 : Int) (w : World)
    (h12 : t1 ≤ t2) (hclose : t2 - t1 < (minimumTimeForUpdate_c : Int))
    (hwin : ((minimumTimeForUpdate_c : Int) ≤ difftime t1 s.lastTimeOfUpdate ∧ t1 < 2 ^ 32) ∨
      difftime t2 s.lastTimeOfUpdate < (minimumTimeForUpdate_c : Int)) :
    ∃ s1 w1,
      getHumidity s t1 w = some (s1.lastHumidity, s1, w1) ∧
      getHumidity s1 t2 w1 = some (s1.lastHumidity, s1, w1) ∧
      getTemperature s t1 w = some (s1.lastTemperature, s1, w1) ∧
      getTemperature s1 t2 w1 = some (s1.lastTemperature, s1, w1) := by
  have key : ∃ s1 w1, updateData s t1 w = some (s1, w1) ∧
      updateData s1 t2 w1 = some (s1, w1) := by
    rcases hwin with ⟨hrate, hfit⟩ | hlim2
    · obtain ⟨s1, w1, hu, ht⟩ := updateData_proceeds s t1 w (not_lt.2 hrate)
      have h0 : 0 ≤ t1 := by
        unfold difftime minimumTimeForUpdate_c at hrate
        omega
      refine ⟨s1, w1, hu, updateData_limited s1 t2 w1 ?_⟩
      unfold difftime
      rw [ht, stored_time_eq t1 h0 hfit]
      exact hclose
    · have hlim1 : difftime t1 s.lastTimeOfUpdate < (minimumTimeForUpdate_c : Int) := by
        unfold difftime at hlim2 ⊢
        omega
      exact ⟨s, w, updateData_limited s t1 w hlim1, updateData_limited s t2 w hlim2⟩
  obtain ⟨s1, w1, hu1, hu2⟩ := key
  refine ⟨s1, w1, ?_, ?_, ?_, ?_⟩
  · unfold getHumidity
    rw [hu1]
  · unfold getHumidity
    rw [hu2]
  · unfold getTemperature
    rw [hu1]
  · unfold getTemperature
    rw [hu2]

/-- C8 amended, witness: `driverOld` read at times 110 and 112 on a line that
delivers a good frame. -/
theorem repeated_read_within_window_witness :
    ∃ s1 w1,
      getHumidity driverOld 110 (freshWorld (lineOfBits bitsGood)) =
        some (s1.lastHumidity, s1, w1) ∧
      getHumidity s1 112 w1 = some (s1.lastHumidity, s1, w1) ∧
      getTemperature driverOld 110 (freshWorld (lineOfBits bitsGood)) =
        some (s1.lastTemperature, s1, w1) ∧
      getTemperature s1 112 w1 = some (s1.lastTemperature, s1, w1) :=
  repeated_read_within_window driverOld 110 112 (freshWorld (lineOfBits bitsGood)) (by decide)
    (by decide) (Or.inl ⟨by decide, by decide⟩)


/-! ## What the waits leave in the trace -/

theorem waitSignalLoop_trace (level maxTime : Nat) :
    ∀ (fuel count : Nat) (w w1 : World) (b : Bool),
      waitSignalLoop level maxTime fuel count w = some (b, w1) →
      ∃ evs, w1.trace = w.trace ++ evs ∧ ∀ e ∈ evs, e ≠ PinEvent.waitUs 40 := by
  intro fuel
  induction fuel with
  | zero =>
    intro count w w1 b h
    simp [waitSignalLoop] at h
  | succ n ih =>
    intro count w w1 b h
    rw [waitSignalLoop] at h
    split at h
    · split at h
      · cases h
        exact ⟨[PinEvent.read w.level], rfl, by simp⟩
      · obtain ⟨evs, he, hq⟩ := ih _ _ _ _ h
        refine ⟨PinEvent.read w.level :: PinEvent.waitUs 1 :: evs, ?_, ?_⟩
        · rw [he]
          simp [World.wait_us, World.readPin]
        · intro e he1
          simp only [List.mem_cons] at he1
          rcases he1 with rfl | rfl | he1
          · simp
          · simp
          · exact hq e he1
    · cases h
      exact ⟨[PinEvent.read w.level], rfl, by simp⟩

theorem waitSignal_trace (w w1 : World) (level maxTime : Nat) (b : Bool)
    (h : waitSignal w level maxTime = some (b, w1)) :
    ∃ evs, w1.trace = w.trace ++ evs ∧ ∀ e ∈ evs, e ≠ PinEvent.waitUs 40 :=
  waitSignalLoop_trace level maxTime _ _ _ _ _ h

theorem trace_step (w w1 w2 : World) (mid : List PinEvent)
    (hmid : ∀ e ∈ mid, e ≠ PinEvent.waitUs 40)
    (h1 : ∃ evs, w1.trace = w.trace ++ evs ∧ ∀ e ∈ evs, e ≠ PinEvent.waitUs 40)
    (h2 : ∃ evs, w2.trace = (w1.trace ++ mid) ++ evs ∧ ∀ e ∈ evs, e ≠ PinEvent.waitUs 40) :
    ∃ evs, w2.trace = w.trace ++ evs ∧ ∀ e ∈ evs, e ≠ PinEvent.waitUs 40 := by
  obtain ⟨e1, ht1, hq1⟩ := h1
  obtain ⟨e2, ht2, hq2⟩ := h2
  refine ⟨e1 ++ mid ++ e2, ?_, ?_⟩
  · rw [ht2, ht1]
    simp [List.append_assoc]
  · intro e he
    simp only [List.mem_append] at he
    rcases he with (he | he) | he
    · exact hq1 e he
    · exact hmid e he
    · exact hq2 e he

theorem hostReset_trace (w : World) :
    (hostReset w).trace = w.trace ++ [PinEvent.output, PinEvent.write 0, PinEvent.sleepMs 20,
      PinEvent.modePullUp, PinEvent.write 1, PinEvent.waitUs 30, PinEvent.input] := by
  simp [hostReset, World.output, World.write, World.thread_sleep_for, World.modePullUp,
    World.wait_us, World.input, LOW, HIGH]

/-- C9: when a read passes the rate limiter and one of the four initiation
waits times out (the idle wait with bound 250, or one of the three
acknowledgment waits with bound 100), the read stops in the world in which
that wait gave up, so no bit is sampled (the settle delay `wait_us(40)` of the
sampler does not occur in what the read added to the trace), the data frame is
the all-zero frame, and the cached humidity and temperature are those before
the read. -/
theorem initiation_timeout_aborts (s : Driver) (now : Int) (w wf : World)
    (hrate : (minimumTimeForUpdate_c : Int) ≤ difftime now s.lastTimeOfUpdate)
    (hfail : waitSignal w.construct 0 250 = some (false, wf) ∨
      (∃ w1, waitSignal w.construct 0 250 = some (true, w1) ∧
        waitSignal (hostReset w1) 1 100 = some (false, wf)) ∨
      (∃ w1 w2, waitSignal w.construct 0 250 = some (true, w1) ∧
        waitSignal (hostReset w1) 1 100 = some (true, w2) ∧
        waitSignal w2 0 100 = some (false, wf)) ∨
      (∃ w1 w2 w3, waitSignal w.construct 0 250 = some (true, w1) ∧
        waitSignal (hostReset w1) 1 100 = some (true, w2) ∧
        waitSignal w2 0 100 = some (true, w3) ∧
        waitSignal w3 1 100 = some (false, wf))) :
    ∃ s1, updateData s now w = some (s1, wf) ∧
      s1.dataFrame = [0, 0, 0, 0, 0] ∧
      s1.lastHumidity = s.lastHumidity ∧ s1.lastTemperature = s.lastTemperature ∧
      ∃ evs, wf.trace = w.trace ++ evs ∧ ∀ e ∈ evs, e ≠ PinEvent.waitUs 40 := by
  have hc : ∃ evs, w.construct.trace = w.trace ++ evs ∧ ∀ e ∈ evs, e ≠ PinEvent.waitUs 40 :=
    ⟨[PinEvent.construct], rfl, by simp⟩
  have hreset : ∀ e ∈ [PinEvent.output, PinEvent.write 0, PinEvent.sleepMs 20,
      PinEvent.modePullUp, PinEvent.write 1, PinEvent.waitUs 30, PinEvent.input],
      e ≠ PinEvent.waitUs 40 := by
    decide
  have hinit : initiation w = some (false, wf) ∧
      ∃ evs, wf.trace = w.trace ++ evs ∧ ∀ e ∈ evs, e ≠ PinEvent.waitUs 40 := by
    unfold initiation
    rcases hfail with h1 | ⟨w1, h1, h2⟩ | ⟨w1, w2, h1, h2, h3⟩ | ⟨w1, w2, w3, h1, h2, h3, h4⟩
    · rw [h1]
      refine ⟨rfl, ?_⟩
      have t1 := waitSignal_trace _ _ _ _ _ h1
      exact trace_step w w.construct wf [] (by simp) hc (by simpa using t1)
    · simp only [h1, h2]
      refine ⟨trivial, ?_⟩
      have t1 := waitSignal_trace _ _ _ _ _ h1
      have t2 := waitSignal_trace _ _ _ _ _ h2
      rw [hostReset_trace] at t2
      have a1 := trace_step w w.construct w1 [] (by simp) hc (by simpa using t1)
      exact trace_step w w1 wf _ hreset a1 t2
    · simp only [h1, h2, h3]
      refine ⟨trivial, ?_⟩
      have t1 := waitSignal_trace _ _ _ _ _ h1
      have t2 := waitSignal_trace _ _ _ _ _ h2
      have t3 := waitSignal_trace _ _ _ _ _ h3
      rw [hostReset_trace] at t2
      have a1 := trace_step w w.construct w1 [] (by simp) hc (by simpa using t1)
      have a2 := trace_step w w1 w2 _ hreset a1 t2
      exact trace_step w w2 wf [] (by simp) a2 (by simpa using t3)
    · simp only [h1, h2, h3, h4]
      refine ⟨trivial, ?_⟩
      have t1 := waitSignal_trace _ _ _ _ _ h1
      have t2 := waitSignal_trace _ _ _ _ _ h2
      have t3 := waitSignal_trace _ _ _ _ _ h3
      have t4 := waitSignal_trace _ _ _ _ _ h4
      rw [hostReset_trace] at t2
      have a1 := trace_step w w.construct w1 [] (by simp) hc (by simpa using t1)
      have a2 := trace_step w w1 w2 _ hreset a1 t2
      have a3 := trace_step w w2 w3 [] (by simp) a2 (by simpa using t3)
      exact trace_step w w3 wf [] (by simp) a3 (by simpa using t4)
  exact ⟨_, updateData_init_fail s now w wf (not_lt.2 hrate) hinit.1, rfl, rfl, rfl, hinit.2⟩

/-- C9, witness: on a line that is always low the idle wait gives up after 252
reads. -/
theorem initiation_timeout_aborts_witness :
    ∃ s1, updateData driverOld 110 (freshWorld lineAlwaysLow) = some (s1, afterIdleTimeout) ∧
      s1.dataFrame = [0, 0, 0, 0, 0] ∧
      s1.lastHumidity = 61 ∧ s1.lastTemperature = 23 ∧
      ∃ evs, afterIdleTimeout.trace = (freshWorld lineAlwaysLow).trace ++ evs ∧
        ∀ e ∈ evs, e ≠ PinEvent.waitUs 40 :=
  initiation_timeout_aborts driverOld 110 (freshWorld lineAlwaysLow) afterIdleTimeout
    (by decide) (Or.inl rfl)


/-! ## The sampling loop, bit by bit -/

theorem forLoop_append {σ : Type} (body : Nat → σ → Option (Bool × σ)) :
    ∀ (l1 l2 : List Nat) (st : σ),
      forLoop body (l1 ++ l2) st =
        match forLoop body l1 st with
        | none => none
        | some (false, st1) => some (false, st1)
        | some (true, st1) => forLoop body l2 st1 := by
  intro l1
  induction l1 with
  | nil => intro l2 st; rfl
  | cons k ks ih =>
    intro l2 st
    rw [List.cons_append, forLoop, forLoop]
    cases hb : body k st with
    | none => rfl
    | some r =>
      obtain ⟨b, st1⟩ := r
      cases b
      · rfl
      · exact ih l2 st1

theorem forLoop_map {σ : Type} (body : Nat → σ → Option (Bool × σ)) (f : Nat → Nat) :
    ∀ (l : List Nat) (st : σ),
      forLoop (fun j st1 => body (f j) st1) l st = forLoop body (l.map f) st := by
  intro l
  induction l with
  | nil => intro st; rfl
  | cons k ks ih =>
    intro st
    rw [List.map_cons, forLoop, forLoop]
    cases hb : body (f k) st with
    | none => rfl
    | some r =>
      obtain ⟨b, st1⟩ := r
      cases b
      · rfl
      · exact ih st1

theorem forLoop_nested {σ : Type} (body : Nat → σ → Option (Bool × σ)) (g : Nat → List Nat) :
    ∀ (l : List Nat) (st : σ),
      forLoop (fun i st1 => forLoop body (g i) st1) l st = forLoop body (l.flatMap g) st := by
  intro l
  induction l with
  | nil => intro st; rfl
  | cons k ks ih =>
    intro st
    rw [List.flatMap_cons, forLoop_append, forLoop]
    cases hb : forLoop body (g k) st with
    | none => rfl
    | some r =>
      obtain ⟨b, st1⟩ := r
      cases b
      · rfl
      · exact ih st1

theorem sampleLoop_flat (bitData : List Nat) (w : World) :
    sampleLoop bitData w = forLoop sampleBit (List.range 40) (bitData, w) := by
  unfold sampleLoop
  have h1 : (fun (i : Nat) (st : List Nat × World) =>
      forLoop (fun j st1 => sampleBit (i * DHT11_MICROCONTROLLER_RESOLUTION_BITS + j) st1)
        (List.range DHT11_MICROCONTROLLER_RESOLUTION_BITS) st) =
      (fun (i : Nat) (st : List Nat × World) =>
        forLoop sampleBit ((List.range 8).map (fun j => i * 8 + j)) st) := by
    funext i st
    exact forLoop_map sampleBit (fun j => i * 8 + j) (List.range 8) st
  rw [h1, forLoop_nested]
  rfl

theorem levelAt_ne_zero (line : Nat → Bool) (i : Nat) (h : levelAt line i = 1) :
    levelAt line i ≠ 0 := by
  rw [h]; decide

theorem levelAt_ne_one (line : Nat → Bool) (i : Nat) (h : levelAt line i = 0) :
    levelAt line i ≠ 1 := by
  rw [h]; decide

theorem sampleBit_first_timeout (k : Nat) (bits : List Nat) (w : World)
    (hlow : ∀ i, i < 77 → levelAt w.line (w.reads + i) = 0) :
    sampleBit k (bits, w) =
      some (false, (bits, { line := w.line, reads := w.reads + 77,
                            trace := w.trace ++ (spin 0 76 ++ [PinEvent.read 0]) })) := by
  unfold sampleBit
  rw [waitSignal_timeout w 0 75 (by norm_num) hlow]

theorem sampleBit_sampled (k : Nat) (bits : List Nat) (w : World) (m n : Nat)
    (hm : m ≤ 76) (hlow : ∀ i, i < m → levelAt w.line (w.reads + i) = 0)
    (hhigh : levelAt w.line (w.reads + m) = 1)
    (hn : n ≤ 51) (hstay : ∀ i, i < n → levelAt w.line (w.reads + m + 2 + i) = 1)
    (hdrop : levelAt w.line (w.reads + m + 2 + n) = 0) :
    sampleBit k (bits, w) =
      some (true, (bits.set k (levelAt w.line (w.reads + m + 1)),
        { line := w.line, reads := w.reads + m + 2 + n + 1,
          trace := w.trace ++ (spin 0 m ++ PinEvent.read 1 :: PinEvent.waitUs 40 ::
            PinEvent.read (levelAt w.line (w.reads + m + 1)) ::
            (spin 1 n ++ [PinEvent.read 0])) })) := by
  unfold sampleBit
  rw [waitSignal_found w 0 75 m hm hlow (levelAt_ne_zero _ _ hhigh)]
  dsimp only [World.wait_us, World.readPin, level_eq]
  rw [waitSignal_found _ 1 50 n hn hstay (levelAt_ne_one _ _ hdrop)]
  simp only [hhigh, hdrop, List.append_assoc, List.cons_append, List.nil_append]

theorem sampleBit_second_timeout (k : Nat) (bits : List Nat) (w : World) (m : Nat)
    (hm : m ≤ 76) (hlow : ∀ i, i < m → levelAt w.line (w.reads + i) = 0)
    (hhigh : levelAt w.line (w.reads + m) = 1)
    (hstay : ∀ i, i < 52 → levelAt w.line (w.reads + m + 2 + i) = 1) :
    sampleBit k (bits, w) =
      some (false, (bits.set k (levelAt w.line (w.reads + m + 1)),
        { line := w.line, reads := w.reads + m + 2 + 52,
          trace := w.trace ++ (spin 0 m ++ PinEvent.read 1 :: PinEvent.waitUs 40 ::
            PinEvent.read (levelAt w.line (w.reads + m + 1)) ::
            (spin 1 51 ++ [PinEvent.read 1])) })) := by
  unfold sampleBit
  rw [waitSignal_found w 0 75 m hm hlow (levelAt_ne_zero _ _ hhigh)]
  dsimp only [World.wait_us, World.readPin, level_eq]
  rw [waitSignal_timeout _ 1 50 (by norm_num) hstay]
  simp only [hhigh, List.append_assoc, List.cons_append, List.nil_append]


/-- C10, as stated, fails: on a line read low, then high, then low for good,
the bit step of `readDataFromPin` spins over the first low read, ends its first
wait at the high read, records 0 and succeeds after 4 reads; a step that first
waited until the line is read low and afterwards until it is read high, as the
claim words it, would record 1 and give up after 54 reads. -/
theorem bit_sampler_polarity_counterexample :
    (sampleBit 0 (emptyBits, freshWorld lineShortPulse)).map
        (fun r => (r.1, r.2.1.getD 0 0, r.2.2.reads, r.2.2.trace)) =
      some (true, 0, 4, [PinEvent.read 0, PinEvent.waitUs 1, PinEvent.read 1,
        PinEvent.waitUs 40, PinEvent.read 0, PinEvent.read 0]) ∧
    (sampleBitAsWorded 0 (emptyBits, freshWorld lineShortPulse)).map
        (fun r => (r.1, r.2.1.getD 0 0, r.2.2.reads)) = some (false, 1, 54) := by
  decide

/-- C10, amended: the sampling loops of `readDataFromPin` run the bit step for
the positions 0, 1, ..., 39 in this order, and the bit step at position `k`
first waits while the line is read low, until it is read high (giving up, with
nothing recorded, when 77 reads in a row are low: the bound 75), then after the
40-microsecond settle delay records the level read at that moment at position
`k`, then waits while the line is read high, until it is read low (giving up
when 52 reads in a row are high: the bound 50) before the next position. -/
theorem bit_sampler_waits_high_then_low (bitData : List Nat) (w0 : World) :
    sampleLoop bitData w0 = forLoop sampleBit (List.range 40) (bitData, w0) ∧
    ∀ (k : Nat) (bits : List Nat) (w : World),
      ((∀ i, i < 77 → levelAt w.line (w.reads + i) = 0) →
        sampleBit k (bits, w) =
          some (false, (bits, { line := w.line, reads := w.reads + 77,
                                trace := w.trace ++ (spin 0 76 ++ [PinEvent.read 0]) }))) ∧
      ∀ m, m ≤ 76 → (∀ i, i < m → levelAt w.line (w.reads + i) = 0) →
        levelAt w.line (w.reads + m) = 1 →
        (∀ n, n ≤ 51 → (∀ i, i < n → levelAt w.line (w.reads + m + 2 + i) = 1) →
          levelAt w.line (w.reads + m + 2 + n) = 0 →
          sampleBit k (bits, w) =
            some (true, (bits.set k (levelAt w.line (w.reads + m + 1)),
              { line := w.line, reads := w.reads + m + 2 + n + 1,
                trace := w.trace ++ (spin 0 m ++ PinEvent.read 1 :: PinEvent.waitUs 40 ::
                  PinEvent.read (levelAt w.line (w.reads + m + 1)) ::
                  (spin 1 n ++ [PinEvent.read 0])) }))) ∧
        ((∀ i, i < 52 → levelAt w.line (w.reads + m + 2 + i) = 1) →
          sampleBit k (bits, w) =
            some (false, (bits.set k (levelAt w.line (w.reads + m + 1)),
              { line := w.line, reads := w.reads + m + 2 + 52,
                trace := w.trace ++ (spin 0 m ++ PinEvent.read 1 :: PinEvent.waitUs 40 ::
                  PinEvent.read (levelAt w.line (w.reads + m + 1)) ::
                  (spin 1 51 ++ [PinEvent.read 1])) }))) := by
  refine ⟨sampleLoop_flat bitData w0, ?_⟩
  intro k bits w
  refine ⟨sampleBit_first_timeout k bits w, ?_⟩
  intro m hm hlow hhigh
  exact ⟨fun n hn hstay hdrop => sampleBit_sampled k bits w m n hm hlow hhigh hn hstay hdrop,
    fun hstay => sampleBit_second_timeout k bits w m hm hlow hhigh hstay⟩

/-- C10 amended, witness: on a line read low once, high three times and then
low, the step at position 0 spins over one low read, records 1, spins over one
high read and ends at the low read, 5 reads in all. -/
theorem bit_sampler_waits_high_then_low_witness :
    sampleBit 0 (emptyBits, freshWorld lineLongPulse) =
      some (true, (emptyBits.set 0 1,
        { line := lineLongPulse, reads := 5,
          trace := [PinEvent.read 0, PinEvent.waitUs 1, PinEvent.read 1, PinEvent.waitUs 40,
            PinEvent.read 1, PinEvent.read 1, PinEvent.waitUs 1, PinEvent.read 0] })) :=
  ((((bit_sampler_waits_high_then_low emptyBits (freshWorld lineLongPulse)).2 0 emptyBits
    (freshWorld lineLongPulse)).2 1 (by decide) (by decide) (by decide)).1 1 (by decide)
    (by decide) (by decide))


/-! ## A sampler that gives up -/

theorem range_split (n k : Nat) (hk : k < n) :
    ∃ l, List.range n = List.range k ++ k :: l := by
  induction n with
  | zero => omega
  | succ n ih =>
    rw [List.range_succ]
    by_cases hkn : k = n
    · subst hkn
      exact ⟨[], rfl⟩
    · obtain ⟨l, hl⟩ := ih (by omega)
      exact ⟨l ++ [n], by rw [hl]; simp⟩

theorem sampleLoop_fails_at (bits : List Nat) (w : World) (k : Nat)
    (st st1 : List Nat × World) (hk : k < 40)
    (hdone : forLoop sampleBit (List.range k) (bits, w) = some (true, st))
    (hfail : sampleBit k st = some (false, st1)) :
    sampleLoop bits w = some (false, st1) := by
  obtain ⟨l, hl⟩ := range_split 40 k hk
  rw [sampleLoop_flat, hl, forLoop_append, hdone]
  simp only [forLoop, hfail]

/-- C11: when the sampling loop of `readDataFromPin` has sampled the bits
`0 .. k-1` (`k < 40`) and a wait of the step for bit `k` times out,
`readDataFromPin` returns `false` and hands back the driver it was given, so
no byte of `dataFrame` is written whatever the sampled bits are; called from
`updateData`, whose attempt starts with the frame zeroed, it leaves the frame
all zero. -/
theorem partial_buffer_never_assembled (s : Driver) (bits : List Nat) (w : World) (k : Nat)
    (st st1 : List Nat × World) (hk : k < 40)
    (hdone : forLoop sampleBit (List.range k) (bits, w) = some (true, st))
    (hfail : sampleBit k st = some (false, st1)) :
    readDataFromPin s bits w = some (false, s, st1.1, st1.2) ∧
      ∀ (s0 : Driver) (now : Int),
        ∃ s1, readDataFromPin (beginAttempt s0 now) bits w = some (false, s1, st1.1, st1.2) ∧
          s1.dataFrame = [0, 0, 0, 0, 0] := by
  have h := sampleLoop_fails_at bits w k st st1 hk hdone hfail
  have hr : ∀ d : Driver, readDataFromPin d bits w = some (false, d, st1.1, st1.2) := by
    intro d
    unfold readDataFromPin
    rw [h]
  exact ⟨hr s, fun s0 now => ⟨_, hr (beginAttempt s0 now), rfl⟩⟩

/-- C11, witness: on `lineTwoBits` two bits are sampled and the first wait of
the third gives up; the frame `[61, 0, 23, 0, 84]` of `driverOld` is handed
back untouched. -/
theorem partial_buffer_never_assembled_witness :
    readDataFromPin driverOld emptyBits (afterHandshake lineTwoBits) =
        some (false, driverOld, afterThirdBitTimeout.1, afterThirdBitTimeout.2) ∧
      ∀ (s0 : Driver) (now : Int),
        ∃ s1, readDataFromPin (beginAttempt s0 now) emptyBits (afterHandshake lineTwoBits) =
            some (false, s1, afterThirdBitTimeout.1, afterThirdBitTimeout.2) ∧
          s1.dataFrame = [0, 0, 0, 0, 0] :=
  partial_buffer_never_assembled driverOld emptyBits (afterHandshake lineTwoBits) 2
    afterTwoBits afterThirdBitTimeout (by decide) rfl rfl


/-! ## The bound of a wait -/

theorem waitSignalLoop_never_gives_up (level : Nat) :
    ∀ (fuel count : Nat) (w : World),
      (∀ i, levelAt w.line (w.reads + i) = level) →
      waitSignalLoop level 4294967295 fuel count w = none := by
  intro fuel
  induction fuel with
  | zero => intro count w _; rfl
  | succ n ih =>
    intro count w hall
    have h0 : levelAt w.line w.reads = level := hall 0
    have hc : ¬ count % 2 ^ 32 > 4294967295 := by
      have := Nat.mod_lt count (show 0 < 2 ^ 32 by norm_num)
      omega
    rw [waitSignalLoop]
    simp only [World.readPin, level_eq, h0, if_true, hc, if_false]
    apply ih
    intro i
    have := hall (i + 1)
    simpa [World.wait_us, Nat.add_assoc, Nat.add_comm 1 i] using this

/-- C12, as stated, fails: with the bound `maxTime = 2 ^ 32 - 1`, a value of
its `unsigned int` type, on a line that is low at every read, the first
`maxTime + 2` reads all equal the level 0 and yet the loop of `waitSignal`
returns with no amount of fuel: `count > maxTime` compares two `unsigned int`
values and cannot hold. -/
theorem waitSignal_unbounded_counterexample :
    (∀ i, i < 4294967295 + 2 →
        levelAt (freshWorld lineAlwaysLow).line ((freshWorld lineAlwaysLow).reads + i) = 0) ∧
      (∀ fuel, waitSignalLoop 0 4294967295 fuel 0 (freshWorld lineAlwaysLow) = none) ∧
      waitSignal (freshWorld lineAlwaysLow) 0 4294967295 = none :=
  ⟨fun _ _ => rfl,
    fun fuel => waitSignalLoop_never_gives_up 0 fuel 0 (freshWorld lineAlwaysLow) (fun _ => rfl),
    waitSignalLoop_never_gives_up 0 _ 0 (freshWorld lineAlwaysLow) (fun _ => rfl)⟩

/-- C12, amended: for every line, level and bound `maxTime` up to `2 ^ 31 - 2`
(the bounds for which the `int` counter cannot overflow, among them the 250,
100, 75 and 50 of the driver), `waitSignal` returns after at most
`maxTime + 2` reads of the pin; it returns `true` at the first read that
differs from `level`, and `false` exactly when the first `maxTime + 2` reads all
equal `level` (having made all of them).  A whole read (`updateData`,
`getHumidity`, `getTemperature`) returns for every driver, time and line. -/
theorem waitSignal_bounded (w : World) (level maxTime : Nat) (hmax : maxTime + 2 ≤ 2 ^ 31) :
    (∃ b w1, waitSignal w level maxTime = some (b, w1) ∧ w1.line = w.line ∧
      w1.reads ≤ w.reads + (maxTime + 2) ∧
      (b = true → ∃ m, m ≤ maxTime + 1 ∧
        (∀ i, i < m → levelAt w.line (w.reads + i) = level) ∧
        levelAt w.line (w.reads + m) ≠ level ∧ w1.reads = w.reads + m + 1) ∧
      (b = false ↔ ∀ i, i < maxTime + 2 → levelAt w.line (w.reads + i) = level) ∧
      (b = false → w1.reads = w.reads + (maxTime + 2))) ∧
    ∀ (s : Driver) (now : Int),
      (∃ r, updateData s now w = some r) ∧ (∃ r, getHumidity s now w = some r) ∧
        (∃ r, getTemperature s now w = some r) := by
  have hfit : maxTime + 1 < 2 ^ 32 := by
    have h31 : (2 : Nat) ^ 31 < 2 ^ 32 := by norm_num
    omega
  constructor
  · by_cases hall : ∀ i, i < maxTime + 2 → levelAt w.line (w.reads + i) = level
    · refine ⟨false, _, waitSignal_timeout w level maxTime hfit hall, rfl, le_refl _, ?_, ?_, ?_⟩
      · intro h; cases h
      · exact ⟨fun _ => hall, fun _ => rfl⟩
      · intro _; rfl
    · have hex : ∃ i, i < maxTime + 2 ∧ levelAt w.line (w.reads + i) ≠ level := by
        by_contra hne
        apply hall
        intro i hi
        by_contra hl
        exact hne ⟨i, hi, hl⟩
      have hspec := Nat.find_spec hex
      have hmin : ∀ i, i < Nat.find hex → levelAt w.line (w.reads + i) = level := by
        intro i hi
        by_contra hl
        exact Nat.find_min hex hi ⟨by omega, hl⟩
      have hm : Nat.find hex ≤ maxTime + 1 := by omega
      refine ⟨true, _, waitSignal_found w level maxTime (Nat.find hex) hm hmin hspec.2, rfl,
        ?_, ?_, ?_, ?_⟩
      · show w.reads + Nat.find hex + 1 ≤ w.reads + (maxTime + 2)
        omega
      · intro _
        exact ⟨Nat.find hex, hm, hmin, hspec.2, rfl⟩
      · constructor
        · intro h; cases h
        · intro h; exact absurd h hall
      · intro h; cases h
  · intro s now
    have hu : ∃ r, updateData s now w = some r := by
      by_cases hlim : difftime now s.lastTimeOfUpdate < (minimumTimeForUpdate_c : Int)
      · exact ⟨_, updateData_limited s now w hlim⟩
      · obtain ⟨s1, w1, h, _⟩ := updateData_proceeds s now w hlim
        exact ⟨_, h⟩
    obtain ⟨⟨s1, w1⟩, h⟩ := hu
    refine ⟨⟨_, h⟩, ?_, ?_⟩
    · unfold getHumidity
      rw [h]
      exact ⟨_, rfl⟩
    · unfold getTemperature
      rw [h]
      exact ⟨_, rfl⟩

/-- C12 amended, witness: on a line that is always low the wait for bound 250
makes 252 reads and returns `false`. -/
theorem waitSignal_bounded_witness :
    ∃ w1, waitSignal (freshWorld lineAlwaysLow) 0 250 = some (false, w1) ∧ w1.reads = 252 := by
  obtain ⟨b, w1, h, _, _, _, hiff, hreads⟩ :=
    (waitSignal_bounded (freshWorld lineAlwaysLow) 0 250 (by norm_num)).1
  have hb : b = false := hiff.2 (by decide)
  subst hb
  exact ⟨w1, h, hreads rfl⟩

/-! ## A sampler timeout seen from `updateData` -/

/-- C13: when a read passes the rate limiter and completes the initiation and
`readDataFromPin` returns `false`, the driver it hands back, the one
`isValidCheckSum` examines, holds the all-zero frame, the checksum test
succeeds on it, and after the read the cached humidity and temperature are both
0, whatever they were before. -/
theorem sampler_timeout_zeroes_cache (s s3 : Driver) (now : Int) (w w1 w2 : World)
    (bits : List Nat)
    (hrate : (minimumTimeForUpdate_c : Int) ≤ difftime now s.lastTimeOfUpdate)
    (hinit : initiation w = some (true, w1))
    (hread : readDataFromPin (beginAttempt s now) emptyBits w1 = some (false, s3, bits, w2)) :
    s3.dataFrame = [0, 0, 0, 0, 0] ∧ isValidCheckSum s3 = true ∧
      ∃ s1, updateData s now w = some (s1, w2) ∧
        s1.lastHumidity = 0 ∧ s1.lastTemperature = 0 ∧ s1.dataFrame = [0, 0, 0, 0, 0] := by
  have hs3 : s3 = beginAttempt s now := by
    unfold readDataFromPin at hread
    cases hl : sampleLoop emptyBits w1 with
    | none => rw [hl] at hread; cases hread
    | some r =>
      obtain ⟨b, st⟩ := r
      rw [hl] at hread
      cases b
      · cases hread
        rfl
      · cases hread
  subst hs3
  have hv : isValidCheckSum (beginAttempt s now) = true := (isValidCheckSum_iff _).2 rfl
  have hu := updateData_sampled s now w w1 w2 false _ bits (not_lt.2 hrate) hinit hread
  rw [hv, if_pos rfl] at hu
  exact ⟨rfl, hv, _, hu, rfl, rfl, rfl⟩

/-- C13, witness: `driverOld`, holding 61 and 23, read at time 110 on a line
that answers the handshake and then stays low. -/
theorem sampler_timeout_zeroes_cache_witness :
    (beginAttempt driverOld 110).dataFrame = [0, 0, 0, 0, 0] ∧
      isValidCheckSum (beginAttempt driverOld 110) = true ∧
      ∃ s1, updateData driverOld 110 (freshWorld lineStuckLow) =
          some (s1, afterFirstBitTimeout) ∧
        s1.lastHumidity = 0 ∧ s1.lastTemperature = 0 ∧ s1.dataFrame = [0, 0, 0, 0, 0] :=
  sampler_timeout_zeroes_cache driverOld (beginAttempt driverOld 110) 110
    (freshWorld lineStuckLow) (afterHandshake lineStuckLow) afterFirstBitTimeout emptyBits
    (by decide) rfl rfl

/-! ## A fresh driver -/

/-- C14: a driver constructed when the clock reads `t0` (a value that fits the
32-bit timestamp field) and read less than 3 seconds later makes no call on the
pin and no delay, stays as constructed, and `getHumidity` and `getTemperature`
both return 0. -/
theorem fresh_driver_is_rate_limited (t0 now : Int) (frame : List Nat) (w : World)
    (hfit : t0 < 2 ^ 32) (hsoon : now - t0 < (minimumTimeForUpdate_c : Int)) :
    updateData (MyDHT t0 frame) now w = some (MyDHT t0 frame, w) ∧
      getHumidity (MyDHT t0 frame) now w = some (0, MyDHT t0 frame, w) ∧
      getTemperature (MyDHT t0 frame) now w = some (0, MyDHT t0 frame, w) := by
  have hlim : difftime now (MyDHT t0 frame).lastTimeOfUpdate < (minimumTimeForUpdate_c : Int) := by
    unfold difftime
    show now - (((t0 % 2 ^ 32).toNat : Nat) : Int) < _
    have hnn : (0 : Int) ≤ t0 % 2 ^ 32 := Int.emod_nonneg t0 (by norm_num)
    rw [Int.toNat_of_nonneg hnn]
    by_cases h0 : 0 ≤ t0
    · rw [Int.emod_eq_of_lt h0 hfit]
      exact hsoon
    · omega
  have hu := updateData_limited (MyDHT t0 frame) now w hlim
  refine ⟨hu, ?_, ?_⟩
  · unfold getHumidity
    rw [hu]
    rfl
  · unfold getTemperature
    rw [hu]
    rfl

/-- C14, witness: constructed at time 100, read at time 102. -/
theorem fresh_driver_is_rate_limited_witness :
    updateData (MyDHT 100 [7, 7, 7, 7, 7]) 102 (freshWorld (lineOfBits bitsGood)) =
        some (MyDHT 100 [7, 7, 7, 7, 7], freshWorld (lineOfBits bitsGood)) ∧
      getHumidity (MyDHT 100 [7, 7, 7, 7, 7]) 102 (freshWorld (lineOfBits bitsGood)) =
        some (0, MyDHT 100 [7, 7, 7, 7, 7], freshWorld (lineOfBits bitsGood)) ∧
      getTemperature (MyDHT 100 [7, 7, 7, 7, 7]) 102 (freshWorld (lineOfBits bitsGood)) =
        some (0, MyDHT 100 [7, 7, 7, 7, 7], freshWorld (lineOfBits bitsGood)) :=
  fresh_driver_is_rate_limited 100 102 [7, 7, 7, 7, 7] (freshWorld (lineOfBits bitsGood))
    (by decide) (by decide)


/-! ## After the switch to input -/

theorem PassiveExt.refl (w : World) : PassiveExt w w :=
  ⟨[], by simp, by simp⟩

theorem PassiveExt.trans {w w1 w2 : World} (h1 : PassiveExt w w1) (h2 : PassiveExt w1 w2) :
    PassiveExt w w2 := by
  obtain ⟨e1, ht1, hp1⟩ := h1
  obtain ⟨e2, ht2, hp2⟩ := h2
  refine ⟨e1 ++ e2, by rw [ht2, ht1, List.append_assoc], ?_⟩
  intro e he
  rcases List.mem_append.1 he with he | he
  · exact hp1 e he
  · exact hp2 e he

theorem waitSignalLoop_starts_with_read (level maxTime : Nat) :
    ∀ (fuel count : Nat) (w w1 : World) (b : Bool),
      waitSignalLoop level maxTime fuel count w = some (b, w1) →
      ∃ evs, w1.trace = w.trace ++ PinEvent.read w.level :: evs ∧
        ∀ e ∈ evs, isReadOrDelay e = true := by
  intro fuel
  induction fuel with
  | zero =>
    intro count w w1 b h
    simp [waitSignalLoop] at h
  | succ n ih =>
    intro count w w1 b h
    rw [waitSignalLoop] at h
    split at h
    · split at h
      · cases h
        exact ⟨[], rfl, by simp⟩
      · obtain ⟨evs, he, hq⟩ := ih _ _ _ _ h
        refine ⟨PinEvent.waitUs 1 :: PinEvent.read (w.readPin.2.wait_us 1).level :: evs, ?_, ?_⟩
        · rw [he]
          simp [World.wait_us, World.readPin]
        · intro e he1
          simp only [List.mem_cons] at he1
          rcases he1 with rfl | rfl | he1
          · rfl
          · rfl
          · exact hq e he1
    · cases h
      exact ⟨[], rfl, by simp⟩

theorem waitSignal_passive (w w1 : World) (level maxTime : Nat) (b : Bool)
    (h : waitSignal w level maxTime = some (b, w1)) : PassiveExt w w1 := by
  obtain ⟨evs, he, hq⟩ := waitSignalLoop_starts_with_read level maxTime _ _ _ _ _ h
  refine ⟨PinEvent.read w.level :: evs, he, ?_⟩
  intro e he1
  rcases List.mem_cons.1 he1 with rfl | he1
  · rfl
  · exact hq e he1

theorem sampleBit_passive (k : Nat) (st st1 : List Nat × World) (b : Bool)
    (h : sampleBit k st = some (b, st1)) : PassiveExt st.2 st1.2 := by
  unfold sampleBit at h
  cases h1 : waitSignal st.2 0 75 with
  | none => rw [h1] at h; cases h
  | some r1 =>
    obtain ⟨b1, w1⟩ := r1
    have p1 := waitSignal_passive _ _ _ _ _ h1
    rw [h1] at h
    cases b1
    · cases h
      exact p1
    · dsimp only at h
      cases h2 : waitSignal ((w1.wait_us 40).readPin).2 1 50 with
      | none => rw [h2] at h; cases h
      | some r2 =>
        obtain ⟨b2, w2⟩ := r2
        have p2 := waitSignal_passive _ _ _ _ _ h2
        have pmid : PassiveExt w1 ((w1.wait_us 40).readPin).2 :=
          ⟨[PinEvent.waitUs 40, PinEvent.read (w1.wait_us 40).level],
            by simp [World.wait_us, World.readPin], by simp [isReadOrDelay]⟩
        rw [h2] at h
        cases b2
        · cases h
          exact p1.trans (pmid.trans p2)
        · cases h
          exact p1.trans (pmid.trans p2)

theorem forLoop_passive (body : Nat → List Nat × World → Option (Bool × (List Nat × World)))
    (hbody : ∀ k st st1 b, body k st = some (b, st1) → PassiveExt st.2 st1.2) :
    ∀ (ks : List Nat) (st st1 : List Nat × World) (b : Bool),
      forLoop body ks st = some (b, st1) → PassiveExt st.2 st1.2 := by
  intro ks
  induction ks with
  | nil =>
    intro st st1 b h
    cases h
    exact PassiveExt.refl _
  | cons k ks ih =>
    intro st st1 b h
    rw [forLoop] at h
    cases hb : body k st with
    | none => rw [hb] at h; cases h
    | some r =>
      obtain ⟨b1, st2⟩ := r
      have p1 := hbody k st st2 b1 hb
      rw [hb] at h
      cases b1
      · cases h
        exact p1
      · exact p1.trans (ih st2 st1 b h)

theorem readDataFromPin_passive (s s1 : Driver) (bits bits1 : List Nat) (w w1 : World)
    (b : Bool) (h : readDataFromPin s bits w = some (b, s1, bits1, w1)) : PassiveExt w w1 := by
  unfold readDataFromPin at h
  cases hl : sampleLoop bits w with
  | none => rw [hl] at h; cases h
  | some r =>
    obtain ⟨b1, st⟩ := r
    have p : PassiveExt w st.2 := by
      rw [sampleLoop_flat] at hl
      exact forLoop_passive sampleBit sampleBit_passive _ _ _ _ hl
    rw [hl] at h
    cases b1
    · cases h
      exact p
    · cases h
      exact p


theorem updateData_after_first_ack (s : Driver) (now : Int) (w w1 w3 : World) (b2 : Bool)
    (hrate : ¬ difftime now s.lastTimeOfUpdate < (minimumTimeForUpdate_c : Int))
    (hidle : waitSignal w.construct 0 250 = some (true, w1))
    (h2 : waitSignal (hostReset w1) 1 100 = some (b2, w3)) :
    ∃ s1 wf, updateData s now w = some (s1, wf) ∧ PassiveExt w3 wf := by
  have key : ∃ b wi, initiation w = some (b, wi) ∧ PassiveExt w3 wi := by
    unfold initiation
    simp only [hidle, h2]
    cases b2
    · exact ⟨_, _, rfl, PassiveExt.refl _⟩
    · obtain ⟨b3, w4, h3⟩ := waitSignal_total w3 0 100 (by norm_num)
      have p3 := waitSignal_passive _ _ _ _ _ h3
      simp only [h3]
      cases b3
      · exact ⟨_, _, rfl, p3⟩
      · obtain ⟨b4, w5, h4⟩ := waitSignal_total w4 1 100 (by norm_num)
        have p4 := waitSignal_passive _ _ _ _ _ h4
        exact ⟨_, _, h4, p3.trans p4⟩
  obtain ⟨b, wi, hi, pi⟩ := key
  cases b
  · exact ⟨_, _, updateData_init_fail s now w wi hrate hi, pi⟩
  · obtain ⟨b5, s3, bits, w6, hr, _⟩ := readDataFromPin_total (beginAttempt s now) emptyBits wi
    have p5 := readDataFromPin_passive _ _ _ _ _ _ _ hr
    exact ⟨_, _, updateData_sampled s now w wi w6 b5 s3 bits hrate hi hr, pi.trans p5⟩

/-- C15: when a read passes the rate limiter and its idle wait succeeds, what
the read adds to the trace after the idle wait is exactly: set direction
output, write low, sleep 20 ms, set pull-up mode, write high, busy-wait 30
microseconds, set direction input, then the first read of the first
acknowledgment wait, and after it reads and delays only; so no write to the pin
(and no change of direction or mode) follows the switch to input. -/
theorem host_reset_sequence (s : Driver) (now : Int) (w w1 : World)
    (hrate : (minimumTimeForUpdate_c : Int) ≤ difftime now s.lastTimeOfUpdate)
    (hidle : waitSignal w.construct 0 250 = some (true, w1)) :
    ∃ s1 wf v rest, updateData s now w = some (s1, wf) ∧
      wf.trace = w1.trace ++ ([PinEvent.output, PinEvent.write 0, PinEvent.sleepMs 20,
        PinEvent.modePullUp, PinEvent.write 1, PinEvent.waitUs 30, PinEvent.input] ++
        PinEvent.read v :: rest) ∧
      (∀ e ∈ rest, isReadOrDelay e = true) ∧ ∀ e ∈ rest, ∀ x, e ≠ PinEvent.write x := by
  obtain ⟨b2, w3, h2⟩ := waitSignal_total (hostReset w1) 1 100 (by norm_num)
  obtain ⟨evs2, ht2, hp2⟩ := waitSignalLoop_starts_with_read 1 100 _ _ _ _ _ h2
  obtain ⟨s1, wf, hu, evs, ht, hp⟩ :=
    updateData_after_first_ack s now w w1 w3 b2 (not_lt.2 hrate) hidle h2
  have hall : ∀ e ∈ evs2 ++ evs, isReadOrDelay e = true := by
    intro e he
    rcases List.mem_append.1 he with he | he
    · exact hp2 e he
    · exact hp e he
  refine ⟨s1, wf, (hostReset w1).level, evs2 ++ evs, hu, ?_, hall, ?_⟩
  · rw [ht, ht2, hostReset_trace]
    simp [List.append_assoc]
  · intro e he x hx
    have := hall e he
    rw [hx] at this
    cases this

/-- C15, witness: `driverOld` read at time 110 on a line that answers the
handshake and then stays low. -/
theorem host_reset_sequence_witness :
    ∃ s1 wf v rest, updateData driverOld 110 (freshWorld lineStuckLow) = some (s1, wf) ∧
      wf.trace = [PinEvent.construct, PinEvent.read 1] ++ ([PinEvent.output, PinEvent.write 0,
        PinEvent.sleepMs 20, PinEvent.modePullUp, PinEvent.write 1, PinEvent.waitUs 30,
        PinEvent.input] ++ PinEvent.read v :: rest) ∧
      (∀ e ∈ rest, isReadOrDelay e = true) ∧ ∀ e ∈ rest, ∀ x, e ≠ PinEvent.write x :=
  host_reset_sequence driverOld 110 (freshWorld lineStuckLow) afterIdleWait (by decide) rfl

end MyDHT
